import Mathlib

/-!
# Verification of the `Command` validation-and-execution pipeline

A shallow embedding of the command/outcome core of the repository
(`Command` and `Outcome` classes, validation passes, defaulting, the
halting discipline and sub-command error copying), translated from the
JavaScript sources.  The primary model follows the variant in
`src/unnamed/part_002` (the most evolved variant present in the sources:
it clones the caller inputs, uses the `HaltExecution` sentinel, and halts
between pipeline stages); line references in doc comments point there.

Modelling conventions:
* JavaScript values are the inductive `JSValue` (undefined, null, NaN,
  booleans, numbers, strings, arrays, plain objects).
* JavaScript objects used as keyed records (inputs, schema, the error
  ledger) are insertion-ordered association lists, mirroring JS property
  order; JS object keys are unique, which list operations respect because
  lookups take the first match and writes only append absent keys.
* Exceptions are modelled by explicit control flow: `runCommand` returns
  the final command state together with `Option String`, `some msg`
  meaning an exception with that message escaped to the caller, and
  `none` meaning a normal return.  The internal `HaltExecution` sentinel
  (thrown by `halt`, caught at the top of `run`) is modelled by the
  boolean "halted" component threaded through `runOps` and by the early
  normal-return branches of `runCommand`.
* The body of the overridable `validate` hook and of the
  subclass-supplied `execute` operation are modelled by the small
  statement language `CmdOp` (a statement with no ledger effect, a
  non-halting `addInputError`, or the halting `addRuntimeError`), plus a
  returned value for `execute`.
* The external utilities `cloneDeep` (lodash) and
  `doNotAllowMissingProperties` (required from a repository file that is
  not among the sources) are modelled from the spec (section 6): the
  working copy of the inputs is isolated from the caller's object, which
  the value semantics of the embedding gives for free.
-/

mutual
/-- A JavaScript runtime value, as far as the pipeline observes it. -/
inductive JSValue where
  | undef
  | jsnull
  | nan
  | bool (b : Bool)
  | num (n : Int)
  | str (s : String)
  | arr (elems : JSList)
  | obj (fields : JSFields)
deriving DecidableEq
inductive JSList where
  | nil
  | cons (head : JSValue) (tail : JSList)
deriving DecidableEq
inductive JSFields where
  | nil
  | cons (key : String) (value : JSValue) (tail : JSFields)
deriving DecidableEq
end

/-- Model of `JSList.isEmpty`: lodash `isEmpty` on an array. -/
def JSList.isEmpty : JSList → Bool
  | .nil => true
  | .cons _ _ => false

/-- Model of `JSFields.isEmpty`: lodash `isEmpty` on a plain object. -/
def JSFields.isEmpty : JSFields → Bool
  | .nil => true
  | .cons _ _ _ => false

/-- The characters matched by the JavaScript regex class `\s` (ASCII part). -/
def jsWhitespace (c : Char) : Bool :=
  c = ' ' || c = '\t' || c = '\n' || c = '\r' || c = '\x0b' || c = '\x0c'

/-- Model of `isBlankString` (part_002 line 309): a string matching `/^\s*$/`,
i.e. empty or consisting only of whitespace. -/
def isBlankString : JSValue → Bool
  | .str s => s.toList.all jsWhitespace
  | _ => false

/-- Model of `isEmptyArray` (part_002 line 310): `isArray(value) && isEmpty(value)`. -/
def isEmptyArray : JSValue → Bool
  | .arr es => es.isEmpty
  | _ => false

/-- Model of `isEmptyObject` (part_002 line 311): `isObject(value) && isEmpty(value)`.
lodash `isObject` holds for plain objects and arrays. -/
def isEmptyObject : JSValue → Bool
  | .obj fs => fs.isEmpty
  | .arr es => es.isEmpty
  | _ => false

/-- lodash `isNaN`: true exactly for the NaN value. -/
def jsIsNaN : JSValue → Bool
  | .nan => true
  | _ => false

/-- Model of `isBlank` (part_002 lines 313-315): null, undefined, a
whitespace-only string, an empty array, an empty object, or NaN. -/
def isBlank (v : JSValue) : Bool :=
  (v = .jsnull) || (v = .undef) || isBlankString v || isEmptyArray v ||
    isEmptyObject v || jsIsNaN v

mutual
/-- JavaScript string conversion `String(value)`, as used when building
the enum error message (`value + ' received but must be one of ...'`). -/
def jsToString : JSValue → String
  | .undef => "undefined"
  | .jsnull => "null"
  | .nan => "NaN"
  | .bool b => if b then "true" else "false"
  | .num n => toString n
  | .str s => s
  | .arr es => jsListToString es
  | .obj _ => "[object Object]"
def jsListToString : JSList → String
  | .nil => ""
  | .cons v .nil => jsToString v
  | .cons v tail => jsToString v ++ "," ++ jsListToString tail
end

/-- One input descriptor of the static schema (spec section 3; consumed at
part_002 lines 111-171).  `hasDefault` models the JavaScript membership
test `'default' in inputSchema`, so that a declared `default: undefined`
is distinguishable from no declared default. -/
structure InputSchema where
  type : String := ""
  required : Bool := false
  hasDefault : Bool := false
  default : JSValue := .undef
  allowBlank : Bool := false
  oneOf : List JSValue := []
deriving DecidableEq

/-- The schema: an insertion-ordered mapping from input name to descriptor. -/
abbrev Schema := List (String × InputSchema)

/-- The (raw or working) inputs: an insertion-ordered keyed record. -/
abbrev Inputs := List (String × JSValue)

/-- The ordered `(symbolic key, human message)` pairs of one error category. -/
abbrev ErrorPairs := List (String × String)

/-- The error ledger `Outcome#_errors`: a mapping from category (an input
name or `"runtime"`) to its ordered error pairs. -/
abbrev Errors := List (String × ErrorPairs)

/-- First-match lookup in a keyed record, as JS property access `m[key]`. -/
def lookupStr {α : Type} : List (String × α) → String → Option α
  | [], _ => none
  | (k, v) :: rest, key => if k = key then some v else lookupStr rest key

/-- The JS membership test `key in m`. -/
def hasKey {α : Type} (m : List (String × α)) (key : String) : Bool :=
  (lookupStr m key).isSome

/-- Whether a category's pair list contains an entry with the given
symbolic key. -/
def containsKey : ErrorPairs → String → Bool
  | [], _ => false
  | (k, _) :: rest, key => if k = key then true else containsKey rest key

/-- Whether a category's pair list contains exactly the given
`(symbolic key, message)` pair. -/
def containsPair : ErrorPairs → String → String → Bool
  | [], _, _ => false
  | (k, m) :: rest, key, msg =>
      if k = key ∧ m = msg then true else containsPair rest key msg

/-- Whether the ledger holds, under `cat`, an error with symbolic key `key`. -/
def errorsContain : Errors → String → String → Bool
  | [], _, _ => false
  | (c, pairs) :: rest, cat, key =>
      if c = cat then containsKey pairs key else errorsContain rest cat key

/-- Whether the ledger holds, under `cat`, exactly the pair `(key, msg)`. -/
def errorsContainPair : Errors → String → String → String → Bool
  | [], _, _, _ => false
  | (c, pairs) :: rest, cat, key, msg =>
      if c = cat then containsPair pairs key msg
      else errorsContainPair rest cat key msg

/-- Model of `Outcome#addInputError` (part_002 lines 263-269): append
`(errorKey, message)` to the category's list, creating the category (at
the end of the ledger, as a fresh JS object property) if absent.  Pure
append: never deduplicates, never overwrites. -/
def addInputError : Errors → String → String → String → Errors
  | [], category, key, msg => [(category, [(key, msg)])]
  | (c, pairs) :: rest, category, key, msg =>
      if c = category then (c, pairs ++ [(key, msg)]) :: rest
      else (c, pairs) :: addInputError rest category key msg

/-- Model of `Outcome#addRuntimeError` (part_002 lines 271-273): an input error
under the reserved `"runtime"` category. -/
def addRuntimeError (es : Errors) (key msg : String) : Errors :=
  addInputError es "runtime" key msg

/-- Model of `Outcome` (part_002 lines 218-307): a single result slot plus the
error ledger.  `result` is `none` until `setResult` is invoked (JS reads
the unset slot as `null`). -/
structure Outcome where
  result : Option JSValue := none
  errors : Errors := []
deriving DecidableEq

/-- Model of `Outcome#hasErrors` (part_002 lines 259-261): `!isEmpty(this.errors)`. -/
def Outcome.hasErrors (o : Outcome) : Bool := !o.errors.isEmpty

/-- Model of `Outcome#success` (part_002 lines 240-242): no errors recorded. -/
def Outcome.success (o : Outcome) : Bool := !o.hasErrors

/-- Model of `validateSupportedInputs` (part_002 lines 111-119): every key of the
supplied inputs must appear in the schema; each unknown key gets an
`unsupported` error keyed by that input name.  The recursion walks the
inputs in insertion order, as the JS `for...in` loop does. -/
def validateSupportedInputs (schema : Schema) : Inputs → Errors → Errors
  | [], es => es
  | (inputName, _) :: rest, es =>
      validateSupportedInputs schema rest
        (if hasKey schema inputName then es
         else addInputError es inputName "unsupported"
            (inputName ++ " is not a supported input"))

/-- Model of `validateBlankInputs` (part_002 lines 121-132): for every supplied
input that has a schema entry, a blank value without `allowBlank` gets a
`blank` error keyed by that input name. -/
def validateBlankInputs (schema : Schema) : Inputs → Errors → Errors
  | [], es => es
  | (inputName, inputValue) :: rest, es =>
      validateBlankInputs schema rest
        (match lookupStr schema inputName with
         | some inputSchema =>
             if isBlank inputValue && !inputSchema.allowBlank then
               addInputError es inputName "blank"
                 (inputName ++ " is not allowed to be blank")
             else es
         | none => es)

/-- Model of `validateRequiredInputs` (part_002 lines 134-145): every schema entry
marked required whose key is absent from the supplied inputs gets a
`missing` error keyed by that input name; the check never looks at the
entry's default. -/
def validateRequiredInputs (inputs : Inputs) : Schema → Errors → Errors
  | [], es => es
  | (inputName, inputSchema) :: rest, es =>
      validateRequiredInputs inputs rest
        (if !hasKey inputs inputName && inputSchema.required then
           addInputError es inputName "missing" (inputName ++ " is missing")
         else es)

/-- Model of `validateEnums` (part_002 lines 157-171): for every enum-typed schema
entry whose key is supplied with a non-undefined value outside `oneOf`,
an `invalid` error naming the received value and the permitted values in
declared order. -/
def validateEnums (inputs : Inputs) : Schema → Errors → Errors
  | [], es => es
  | (inputName, inputSchema) :: rest, es =>
      validateEnums inputs rest
        (if inputSchema.type = "enum" ∧ hasKey inputs inputName then
           match lookupStr inputs inputName with
           | some value =>
               if value ≠ JSValue.undef ∧ value ∉ inputSchema.oneOf then
                 addInputError es inputName "invalid"
                   (jsToString value ++ " received but must be one of " ++
                     String.intercalate ", " (inputSchema.oneOf.map jsToString))
               else es
           | none => es
         else es)

/-- Model of `applyDefaultInputs` (part_002 lines 147-155): every schema-declared
key absent from the working inputs is filled with the declared default
(or explicit `undefined` when none is declared); supplied keys are left
untouched.  New keys append in schema order, as JS property writes do. -/
def applyDefaultInputs : Schema → Inputs → Inputs
  | [], inputs => inputs
  | (inputName, inputSchema) :: rest, inputs =>
      if hasKey inputs inputName then applyDefaultInputs rest inputs
      else
        applyDefaultInputs rest
          (inputs ++
            [(inputName,
              if inputSchema.hasDefault then inputSchema.default else .undef)])

/-- The error accumulation of `validateInputs` (part_002 lines 101-109):
all four passes run unconditionally, in order, over the shared ledger;
the trailing `haltIfHasErrors()` is modelled at the call site in
`runCommand`. -/
def validateInputsErrors (schema : Schema) (inputs : Inputs) (es : Errors) :
    Errors :=
  validateEnums inputs schema
    (validateRequiredInputs inputs schema
      (validateBlankInputs schema inputs
        (validateSupportedInputs schema inputs es)))

/-- The structural-validation ledger of a fresh run (empty initial ledger). -/
def structuralErrors (schema : Schema) (inputs : Inputs) : Errors :=
  validateInputsErrors schema inputs []

/-- One statement of a `validate` hook or `execute` body, as far as the
ledger observes it: a statement with no ledger effect, the non-halting
`Command#addInputError` delegation (part_002 line 92), or
`Command#addRuntimeError` (part_002 lines 93-96), which records a runtime
error and then throws the `HaltExecution` sentinel. -/
inductive CmdOp where
  | pureOp
  | addInputError (category key message : String)
  | addRuntimeError (key message : String)
deriving DecidableEq

/-- Whether a statement halts (records and throws `HaltExecution`). -/
def CmdOp.isHalting : CmdOp → Bool
  | .addRuntimeError _ _ => true
  | _ => false

/-- Run the statements of a hook/`execute` body in order against the
ledger; the boolean is true when a halting statement fired, in which case
the subsequently-ordered statements are not executed. -/
def runOps : List CmdOp → Errors → Errors × Bool
  | [], es => (es, false)
  | .pureOp :: rest, es => runOps rest es
  | .addInputError c k m :: rest, es => runOps rest (addInputError es c k m)
  | .addRuntimeError k m :: _, es => (addRuntimeError es k m, true)

/-- The subclass-supplied parts of a concrete command: its static schema,
the body of its overridable `validate` hook (empty by default, part_002
line 77), and the body and returned value of its `execute` operation. -/
structure CommandSpec where
  schema : Schema := []
  validateHook : List CmdOp := []
  executeOps : List CmdOp := []
  executeRet : JSValue := .undef
deriving DecidableEq

/-- The mutable state of one `Command` instance (part_002 lines 13-24). -/
structure CommandState where
  rawInputs : Inputs
  inputs : Inputs
  started : Bool
  completed : Bool
  outcome : Outcome
deriving DecidableEq

/-- The constructor (part_002 lines 18-24): store the caller's object as
`_rawInputs` and a working copy as `inputs`.  The copy is
`doNotAllowMissingProperties(cloneDeep(inputs))` in the source; both
utilities are outside the sources and are modelled from the spec
(section 6) as producing an isolated equivalent structure, which the
value semantics of the embedding provides. -/
def mkCommand (inputs : Inputs) : CommandState :=
  { rawInputs := inputs
    inputs := inputs
    started := false
    completed := false
    outcome := {} }

/-- Model of `Command#run` (part_002 lines 40-61), with the exception discipline
made explicit.  Stages, in source order:
1. a second invocation throws `"Cannot run a command twice"` before the
   `try` block (so the state, ledger included, is untouched);
2. `validateInputs()` runs all four passes, then `haltIfHasErrors()`
   throws `HaltExecution` when the ledger is non-empty — caught at the
   top of `run`, `finally` sets `completed`, and the outcome is returned
   normally (defaults are NOT applied on this path);
3. `applyDefaultInputs()`;
4. `_validate()` runs the hook, then `haltIfHasErrors()`;
5. `execute()` runs; a halting statement records its error, aborts the
   rest of the body, and is caught at the top of `run`;
6. only when `execute` returned normally, `setResult(result)` stores the
   returned value — note the source does not re-check the ledger here.
The second component is `some msg` exactly when an exception escapes to
the caller. -/
def runCommand (cs : CommandSpec) (c : CommandState) :
    CommandState × Option String :=
  if c.started then (c, some "Cannot run a command twice")
  else
    let c1 : CommandState := { c with started := true }
    let es1 := validateInputsErrors cs.schema c1.inputs c1.outcome.errors
    if !es1.isEmpty then
      ({ c1 with outcome := { c1.outcome with errors := es1 }
                 completed := true }, none)
    else
      let c2 : CommandState :=
        { c1 with outcome := { c1.outcome with errors := es1 }
                  inputs := applyDefaultInputs cs.schema c1.inputs }
      let hookRes := runOps cs.validateHook c2.outcome.errors
      let c3 : CommandState :=
        { c2 with outcome := { c2.outcome with errors := hookRes.1 } }
      if hookRes.2 || !hookRes.1.isEmpty then
        ({ c3 with completed := true }, none)
      else
        let execRes := runOps cs.executeOps c3.outcome.errors
        let c4 : CommandState :=
          { c3 with outcome := { c3.outcome with errors := execRes.1 } }
        if execRes.2 then ({ c4 with completed := true }, none)
        else
          ({ c4 with outcome := { c4.outcome with
                                    result := some cs.executeRet }
                     completed := true }, none)

/-- Inner loop of `copyErrors` (part_002 lines 199-203): each child pair
`(key, msg)` of a category is appended to the parent ledger under the
same category with the key re-namespaced `subName ++ ":" ++ key`. -/
def copyErrorList (subName category : String) : ErrorPairs → Errors → Errors
  | [], es => es
  | (key, msg) :: rest, es =>
      copyErrorList subName category rest
        (addInputError es category (subName ++ ":" ++ key) msg)

/-- Model of `copyErrors` (part_002 lines 192-205): walk the child ledger category
by category, copying every pair into the parent ledger. -/
def copyErrors (subName : String) : Errors → Errors → Errors
  | [], es => es
  | (category, pairs) :: rest, es =>
      copyErrors subName rest (copyErrorList subName category pairs es)

/-- What `runSubCommand` hands back: the child result (assert-success
mode) or the child outcome. -/
inductive SubReturn where
  | value (r : Option JSValue)
  | outcome (o : Outcome)
deriving DecidableEq

/-- The effect of `runSubCommand` on the parent: the parent ledger after
the call, whether the parent was halted (`this.halt()` fired), and the
value returned (meaningless when halted, as the JS `return` statement is
never reached). -/
structure SubRunResult where
  parentErrors : Errors
  halted : Bool
  returned : SubReturn
deriving DecidableEq

/-- Model of `runSubCommand` (part_002 lines 177-190): construct and run a child
command; when the child failed, copy every child error into the parent
ledger (re-namespaced) and, in assert-success mode, halt the parent. -/
def runSubCommand (parentErrors : Errors) (subName : String)
    (subSpec : CommandSpec) (subInputs : Inputs) (assertSuccess : Bool) :
    SubRunResult :=
  let fin := (runCommand subSpec (mkCommand subInputs)).1
  let outcome := fin.outcome
  if !outcome.success then
    { parentErrors := copyErrors subName outcome.errors parentErrors
      halted := assertSuccess
      returned :=
        if assertSuccess then .value outcome.result else .outcome outcome }
  else
    { parentErrors := parentErrors
      halted := false
      returned :=
        if assertSuccess then .value outcome.result else .outcome outcome }

/-- Modelled from the spec: the strict static-schema variant.  The
sources contain only its tests (`part_001`, which expects
`CommandWithNonStaticSchemaError`); the implementation is not among the
source files.  Per spec sections 3, 6 and 9, a schema attached only to an
instance rather than statically to the type is rejected at run time with
a dedicated configuration error raised before any validation pass
executes, with no permissive fallback to the instance-level schema. -/
def runWithStaticSchemaCheck (schemaIsStatic : Bool) (cs : CommandSpec)
    (c : CommandState) : CommandState × Option String :=
  if !schemaIsStatic then (c, some "CommandWithNonStaticSchemaError")
  else runCommand cs c

/-! ## Ledger lemmas -/

theorem containsKey_append (ps qs : ErrorPairs) (k : String) :
    containsKey (ps ++ qs) k = (containsKey ps k || containsKey qs k) := by
  induction ps with
  | nil => simp [containsKey]
  | cons hd tl ih =>
    obtain ⟨k0, m0⟩ := hd
    by_cases h : k0 = k <;> simp [containsKey, h, ih]

theorem containsPair_append (ps qs : ErrorPairs) (k m : String) :
    containsPair (ps ++ qs) k m =
      (containsPair ps k m || containsPair qs k m) := by
  induction ps with
  | nil => simp [containsPair]
  | cons hd tl ih =>
    obtain ⟨k0, m0⟩ := hd
    by_cases h : k0 = k ∧ m0 = m <;> simp [containsPair, h, ih]

theorem errorsContain_addInputError (es : Errors) (cat key msg c k : String) :
    errorsContain (addInputError es cat key msg) c k = true ↔
      (errorsContain es c k = true ∨ (cat = c ∧ key = k)) := by
  induction es with
  | nil =>
    by_cases hc : cat = c
    · subst hc
      by_cases hk : key = k <;>
        simp [addInputError, errorsContain, containsKey, hk]
    · simp [addInputError, errorsContain, containsKey, hc]
  | cons hd tl ih =>
    obtain ⟨c0, ps⟩ := hd
    by_cases h1 : c0 = cat
    · subst h1
      by_cases h2 : c0 = c
      · subst h2
        simp only [addInputError, if_pos rfl, errorsContain,
          containsKey_append, containsKey]
        by_cases hk : key = k <;> simp [hk]
      · simp [addInputError, errorsContain, h2]
    · by_cases h2 : c0 = c
      · have h1s : ¬ cat = c0 := fun hh => h1 hh.symm
        subst h2
        simp [addInputError, errorsContain, h1, h1s]
      · simp [addInputError, errorsContain, h1, h2, ih]

theorem errorsContainPair_addInputError (es : Errors) (cat key msg c k m : String) :
    errorsContainPair (addInputError es cat key msg) c k m = true ↔
      (errorsContainPair es c k m = true ∨ (cat = c ∧ key = k ∧ msg = m)) := by
  induction es with
  | nil =>
    by_cases hc : cat = c
    · subst hc
      by_cases hk : key = k ∧ msg = m <;>
        simp [addInputError, errorsContainPair, containsPair, hk, and_assoc]
    · simp [addInputError, errorsContainPair, containsPair, hc]
  | cons hd tl ih =>
    obtain ⟨c0, ps⟩ := hd
    by_cases h1 : c0 = cat
    · subst h1
      by_cases h2 : c0 = c
      · subst h2
        simp only [addInputError, if_pos rfl, errorsContainPair,
          containsPair_append, containsPair]
        by_cases hk : key = k ∧ msg = m <;> simp [hk, and_assoc]
      · simp [addInputError, errorsContainPair, h2]
    · by_cases h2 : c0 = c
      · have h1s : ¬ cat = c0 := fun hh => h1 hh.symm
        subst h2
        simp [addInputError, errorsContainPair, h1, h1s]
      · simp [addInputError, errorsContainPair, h1, h2, ih]

theorem errorsContain_isEmpty_false {es : Errors} {c k : String}
    (h : errorsContain es c k = true) : es.isEmpty = false := by
  cases es with
  | nil => simp [errorsContain] at h
  | cons hd tl => rfl

theorem errorsContainPair_isEmpty_false {es : Errors} {c k m : String}
    (h : errorsContainPair es c k m = true) : es.isEmpty = false := by
  cases es with
  | nil => simp [errorsContainPair] at h
  | cons hd tl => rfl

/-! ## Keyed-record lookup lemmas -/

theorem lookupStr_append_left {α : Type} (xs ys : List (String × α)) (k : String)
    {v : α} (h : lookupStr xs k = some v) : lookupStr (xs ++ ys) k = some v := by
  induction xs with
  | nil => simp [lookupStr] at h
  | cons hd tl ih =>
    obtain ⟨k0, v0⟩ := hd
    rw [lookupStr] at h
    rw [List.cons_append, lookupStr]
    by_cases hk : k0 = k
    · rw [if_pos hk] at h ⊢; exact h
    · rw [if_neg hk] at h ⊢; exact ih h

theorem lookupStr_append_right {α : Type} (xs ys : List (String × α)) (k : String)
    (h : lookupStr xs k = none) : lookupStr (xs ++ ys) k = lookupStr ys k := by
  induction xs with
  | nil => rw [List.nil_append]
  | cons hd tl ih =>
    obtain ⟨k0, v0⟩ := hd
    rw [lookupStr] at h
    rw [List.cons_append, lookupStr]
    by_cases hk : k0 = k
    · rw [if_pos hk] at h; exact absurd h (by simp)
    · rw [if_neg hk] at h ⊢; exact ih h

theorem hasKey_false_lookup_none {α : Type} {m : List (String × α)} {k : String}
    (h : ¬ hasKey m k = true) : lookupStr m k = none := by
  unfold hasKey at h
  cases hl : lookupStr m k with
  | none => rfl
  | some v => rw [hl] at h; simp at h

/-! ## Per-pass lemmas: monotonicity (the passes only append errors) -/

theorem errorsContain_validateSupportedInputs_mono (schema : Schema)
    (inputs : Inputs) (es : Errors) (c k : String)
    (h : errorsContain es c k = true) :
    errorsContain (validateSupportedInputs schema inputs es) c k = true := by
  induction inputs generalizing es with
  | nil => exact h
  | cons hd tl ih =>
    obtain ⟨n, v⟩ := hd
    rw [validateSupportedInputs]
    apply ih
    by_cases hn : hasKey schema n = true
    · rw [if_pos hn]; exact h
    · rw [if_neg hn]
      exact (errorsContain_addInputError _ _ _ _ _ _).mpr (Or.inl h)

theorem errorsContain_validateBlankInputs_mono (schema : Schema)
    (inputs : Inputs) (es : Errors) (c k : String)
    (h : errorsContain es c k = true) :
    errorsContain (validateBlankInputs schema inputs es) c k = true := by
  induction inputs generalizing es with
  | nil => exact h
  | cons hd tl ih =>
    obtain ⟨n, v⟩ := hd
    rw [validateBlankInputs]
    apply ih
    cases hs : lookupStr schema n with
    | none => simpa [hs] using h
    | some sch =>
      by_cases hb : (isBlank v && !sch.allowBlank) = true
      · simp only [hs, hb, if_true]
        exact (errorsContain_addInputError _ _ _ _ _ _).mpr (Or.inl h)
      · simpa [hs, hb] using h

theorem errorsContain_validateRequiredInputs_mono (inputs : Inputs)
    (schema : Schema) (es : Errors) (c k : String)
    (h : errorsContain es c k = true) :
    errorsContain (validateRequiredInputs inputs schema es) c k = true := by
  induction schema generalizing es with
  | nil => exact h
  | cons hd tl ih =>
    obtain ⟨n, s⟩ := hd
    rw [validateRequiredInputs]
    apply ih
    by_cases hc : (!hasKey inputs n && s.required) = true
    · rw [if_pos hc]
      exact (errorsContain_addInputError _ _ _ _ _ _).mpr (Or.inl h)
    · rw [if_neg hc]; exact h

theorem errorsContain_validateEnums_mono (inputs : Inputs) (schema : Schema)
    (es : Errors) (c k : String) (h : errorsContain es c k = true) :
    errorsContain (validateEnums inputs schema es) c k = true := by
  induction schema generalizing es with
  | nil => exact h
  | cons hd tl ih =>
    obtain ⟨n, s⟩ := hd
    rw [validateEnums]
    apply ih
    by_cases ht : s.type = "enum" ∧ hasKey inputs n = true
    · rw [if_pos ht]
      cases hl : lookupStr inputs n with
      | none => exact h
      | some value =>
        simp only []
        by_cases hv : value ≠ JSValue.undef ∧ value ∉ s.oneOf
        · rw [if_pos hv]
          exact (errorsContain_addInputError _ _ _ _ _ _).mpr (Or.inl h)
        · rw [if_neg hv]; exact h
    · rw [if_neg ht]; exact h

/-! ## Per-pass lemmas: origin (each pass only adds its own symbolic key) -/

theorem errorsContain_validateSupportedInputs_origin (schema : Schema)
    (inputs : Inputs) (es : Errors) (c k : String)
    (h : errorsContain (validateSupportedInputs schema inputs es) c k = true) :
    errorsContain es c k = true ∨ k = "unsupported" := by
  induction inputs generalizing es with
  | nil => exact Or.inl h
  | cons hd tl ih =>
    obtain ⟨n, v⟩ := hd
    rw [validateSupportedInputs] at h
    rcases ih _ h with h' | h'
    · by_cases hn : hasKey schema n = true
      · rw [if_pos hn] at h'; exact Or.inl h'
      · rw [if_neg hn] at h'
        rcases (errorsContain_addInputError _ _ _ _ _ _).mp h' with h'' | ⟨_, hk⟩
        · exact Or.inl h''
        · exact Or.inr hk.symm
    · exact Or.inr h'

theorem errorsContain_validateBlankInputs_origin (schema : Schema)
    (inputs : Inputs) (es : Errors) (c k : String)
    (h : errorsContain (validateBlankInputs schema inputs es) c k = true) :
    errorsContain es c k = true ∨ k = "blank" := by
  induction inputs generalizing es with
  | nil => exact Or.inl h
  | cons hd tl ih =>
    obtain ⟨n, v⟩ := hd
    rw [validateBlankInputs] at h
    rcases ih _ h with h' | h'
    · cases hs : lookupStr schema n with
      | none => rw [hs] at h'; exact Or.inl h'
      | some sch =>
        rw [hs] at h'
        simp only [] at h'
        by_cases hb : (isBlank v && !sch.allowBlank) = true
        · rw [if_pos hb] at h'
          rcases (errorsContain_addInputError _ _ _ _ _ _).mp h' with h'' | ⟨_, hk⟩
          · exact Or.inl h''
          · exact Or.inr hk.symm
        · rw [if_neg hb] at h'; exact Or.inl h'
    · exact Or.inr h'

theorem errorsContain_validateRequiredInputs_origin (inputs : Inputs)
    (schema : Schema) (es : Errors) (c k : String)
    (h : errorsContain (validateRequiredInputs inputs schema es) c k = true) :
    errorsContain es c k = true ∨ (k = "missing" ∧ hasKey inputs c = false) := by
  induction schema generalizing es with
  | nil => exact Or.inl h
  | cons hd tl ih =>
    obtain ⟨n, s⟩ := hd
    rw [validateRequiredInputs] at h
    rcases ih _ h with h' | h'
    · by_cases hc : (!hasKey inputs n && s.required) = true
      · rw [if_pos hc] at h'
        rcases (errorsContain_addInputError _ _ _ _ _ _).mp h' with h'' | ⟨hcc, hkk⟩
        · exact Or.inl h''
        · subst hcc
          refine Or.inr ⟨hkk.symm, ?_⟩
          have h1 : (!hasKey inputs n) = true := ((Bool.and_eq_true _ _).mp hc).1
          simpa using h1
      · rw [if_neg hc] at h'; exact Or.inl h'
    · exact Or.inr h'

theorem errorsContain_validateEnums_origin (inputs : Inputs) (schema : Schema)
    (es : Errors) (c k : String)
    (h : errorsContain (validateEnums inputs schema es) c k = true) :
    errorsContain es c k = true ∨ k = "invalid" := by
  induction schema generalizing es with
  | nil => exact Or.inl h
  | cons hd tl ih =>
    obtain ⟨n, s⟩ := hd
    rw [validateEnums] at h
    rcases ih _ h with h' | h'
    · by_cases ht : s.type = "enum" ∧ hasKey inputs n = true
      · rw [if_pos ht] at h'
        cases hl : lookupStr inputs n with
        | none => rw [hl] at h'; exact Or.inl h'
        | some value =>
          rw [hl] at h'
          simp only [] at h'
          by_cases hv : value ≠ JSValue.undef ∧ value ∉ s.oneOf
          · rw [if_pos hv] at h'
            rcases (errorsContain_addInputError _ _ _ _ _ _).mp h' with h'' | ⟨_, hk⟩
            · exact Or.inl h''
            · exact Or.inr hk.symm
          · rw [if_neg hv] at h'; exact Or.inl h'
      · rw [if_neg ht] at h'; exact Or.inl h'
    · exact Or.inr h'

/-! ## Per-pass lemmas: the errors each pass is guaranteed to record -/

theorem validateRequiredInputs_adds (inputs : Inputs) (schema : Schema)
    (es : Errors) (name : String) (sch : InputSchema)
    (hs : lookupStr schema name = some sch) (hr : sch.required = true)
    (ha : hasKey inputs name = false) :
    errorsContain (validateRequiredInputs inputs schema es) name "missing" =
      true := by
  induction schema generalizing es with
  | nil => simp [lookupStr] at hs
  | cons hd tl ih =>
    obtain ⟨n, s⟩ := hd
    rw [validateRequiredInputs]
    by_cases hn : n = name
    · subst hn
      rw [lookupStr, if_pos rfl] at hs
      obtain rfl : s = sch := Option.some.inj hs
      have hcond : (!hasKey inputs n && s.required) = true := by
        rw [ha, hr]; rfl
      rw [if_pos hcond]
      apply errorsContain_validateRequiredInputs_mono
      exact (errorsContain_addInputError _ _ _ _ _ _).mpr (Or.inr ⟨rfl, rfl⟩)
    · rw [lookupStr, if_neg hn] at hs
      by_cases hc : (!hasKey inputs n && s.required) = true
      · rw [if_pos hc]; exact ih _ hs
      · rw [if_neg hc]; exact ih _ hs

theorem validateBlankInputs_adds (schema : Schema) (inputs : Inputs)
    (es : Errors) (name : String) (v : JSValue) (sch : InputSchema)
    (hin : lookupStr inputs name = some v) (hb : isBlank v = true)
    (hs : lookupStr schema name = some sch) (hab : sch.allowBlank = false) :
    errorsContain (validateBlankInputs schema inputs es) name "blank" = true := by
  induction inputs generalizing es with
  | nil => simp [lookupStr] at hin
  | cons hd tl ih =>
    obtain ⟨n, w⟩ := hd
    rw [validateBlankInputs]
    by_cases hn : n = name
    · subst hn
      rw [lookupStr, if_pos rfl] at hin
      obtain rfl : w = v := Option.some.inj hin
      rw [hs]
      simp only []
      have hcond : (isBlank w && !sch.allowBlank) = true := by
        rw [hb, hab]; rfl
      rw [if_pos hcond]
      apply errorsContain_validateBlankInputs_mono
      exact (errorsContain_addInputError _ _ _ _ _ _).mpr (Or.inr ⟨rfl, rfl⟩)
    · rw [lookupStr, if_neg hn] at hin
      exact ih _ hin

/-! ## Structural validation (`validateInputs`, all four passes composed) -/

theorem validateInputsErrors_contains_missing (schema : Schema)
    (inputs : Inputs) (es : Errors) (name : String) (sch : InputSchema)
    (hs : lookupStr schema name = some sch) (hr : sch.required = true)
    (ha : hasKey inputs name = false) :
    errorsContain (validateInputsErrors schema inputs es) name "missing" =
      true := by
  unfold validateInputsErrors
  apply errorsContain_validateEnums_mono
  exact validateRequiredInputs_adds inputs schema _ name sch hs hr ha

theorem validateInputsErrors_contains_blank (schema : Schema)
    (inputs : Inputs) (es : Errors) (name : String) (v : JSValue)
    (sch : InputSchema) (hin : lookupStr inputs name = some v)
    (hb : isBlank v = true) (hs : lookupStr schema name = some sch)
    (hab : sch.allowBlank = false) :
    errorsContain (validateInputsErrors schema inputs es) name "blank" =
      true := by
  unfold validateInputsErrors
  apply errorsContain_validateEnums_mono
  apply errorsContain_validateRequiredInputs_mono
  exact validateBlankInputs_adds schema inputs _ name v sch hin hb hs hab

theorem validateInputsErrors_no_missing_when_present (schema : Schema)
    (inputs : Inputs) (es : Errors) (name : String)
    (hkey : hasKey inputs name = true)
    (hes : errorsContain es name "missing" = false) :
    errorsContain (validateInputsErrors schema inputs es) name "missing" =
      false := by
  by_contra hcon
  rw [Bool.not_eq_false] at hcon
  unfold validateInputsErrors at hcon
  rcases errorsContain_validateEnums_origin _ _ _ _ _ hcon with h1 | h1
  · rcases errorsContain_validateRequiredInputs_origin _ _ _ _ _ h1 with h2 | h2
    · rcases errorsContain_validateBlankInputs_origin _ _ _ _ _ h2 with h3 | h3
      · rcases errorsContain_validateSupportedInputs_origin _ _ _ _ _ h3 with h4 | h4
        · rw [hes] at h4; exact Bool.false_ne_true h4
        · exact absurd h4 (by decide)
      · exact absurd h3 (by decide)
    · rw [hkey] at h2
      exact absurd h2.2 (by simp)
  · exact absurd h1 (by decide)

/-! ## Defaulting lemmas -/

theorem applyDefaultInputs_lookup_preserved (schema : Schema) (ins : Inputs)
    (k : String) {v : JSValue} (h : lookupStr ins k = some v) :
    lookupStr (applyDefaultInputs schema ins) k = some v := by
  induction schema generalizing ins with
  | nil => exact h
  | cons hd tl ih =>
    obtain ⟨n, s⟩ := hd
    rw [applyDefaultInputs]
    by_cases hn : hasKey ins n = true
    · rw [if_pos hn]; exact ih _ h
    · rw [if_neg hn]; exact ih _ (lookupStr_append_left _ _ _ h)

theorem applyDefaultInputs_hasKey_mono (schema : Schema) (ins : Inputs)
    (k : String) (h : hasKey ins k = true) :
    hasKey (applyDefaultInputs schema ins) k = true := by
  unfold hasKey at h ⊢
  cases hl : lookupStr ins k with
  | none => rw [hl] at h; simp at h
  | some v => rw [applyDefaultInputs_lookup_preserved schema ins k hl]; rfl

theorem applyDefaultInputs_hasKey_of_mem (schema : Schema) (ins : Inputs)
    (p : String × InputSchema) (hp : p ∈ schema) :
    hasKey (applyDefaultInputs schema ins) p.1 = true := by
  induction schema generalizing ins with
  | nil => simp at hp
  | cons hd tl ih =>
    obtain ⟨n, s⟩ := hd
    rw [applyDefaultInputs]
    rcases List.mem_cons.mp hp with heq | hmem
    · subst heq
      by_cases hn : hasKey ins n = true
      · rw [if_pos hn]; exact applyDefaultInputs_hasKey_mono _ _ _ hn
      · rw [if_neg hn]
        apply applyDefaultInputs_hasKey_mono
        unfold hasKey
        rw [lookupStr_append_right _ _ _ (hasKey_false_lookup_none hn),
          lookupStr, if_pos rfl]
        rfl
    · by_cases hn : hasKey ins n = true
      · rw [if_pos hn]; exact ih _ hmem
      · rw [if_neg hn]; exact ih _ hmem

theorem applyDefaultInputs_eq_of_present (schema : Schema) (ins : Inputs)
    (h : ∀ p ∈ schema, hasKey ins p.1 = true) :
    applyDefaultInputs schema ins = ins := by
  induction schema with
  | nil => rfl
  | cons hd tl ih =>
    obtain ⟨n, s⟩ := hd
    rw [applyDefaultInputs, if_pos (h (n, s) (List.mem_cons_self _ _))]
    exact ih (fun p hp => h p (List.mem_cons_of_mem _ hp))

theorem applyDefaultInputs_fills (schema : Schema) (ins : Inputs)
    (name : String) (sch : InputSchema)
    (hs : lookupStr schema name = some sch) (hn : lookupStr ins name = none) :
    lookupStr (applyDefaultInputs schema ins) name =
      some (if sch.hasDefault then sch.default else JSValue.undef) := by
  induction schema generalizing ins with
  | nil => simp [lookupStr] at hs
  | cons hd tl ih =>
    obtain ⟨n, s⟩ := hd
    rw [applyDefaultInputs]
    by_cases hnn : n = name
    · subst hnn
      rw [lookupStr, if_pos rfl] at hs
      obtain rfl : s = sch := Option.some.inj hs
      have hkey : ¬ hasKey ins n = true := by
        unfold hasKey; rw [hn]; simp
      rw [if_neg hkey]
      apply applyDefaultInputs_lookup_preserved
      rw [lookupStr_append_right _ _ _ hn, lookupStr, if_pos rfl]
    · rw [lookupStr, if_neg hnn] at hs
      by_cases hk : hasKey ins n = true
      · rw [if_pos hk]; exact ih _ hs hn
      · rw [if_neg hk]
        apply ih _ hs
        rw [lookupStr_append_right _ _ _ hn, lookupStr, if_neg hnn, lookupStr]

/-! ## Hook / execute statement lemmas -/

theorem runOps_append_halting (pre post : List CmdOp) (k m : String)
    (es : Errors) (h : ∀ op ∈ pre, op.isHalting = false) :
    runOps (pre ++ CmdOp.addRuntimeError k m :: post) es =
      (addRuntimeError (runOps pre es).1 k m, true) := by
  induction pre generalizing es with
  | nil => simp [runOps]
  | cons op rest ih =>
    cases op with
    | pureOp =>
      rw [List.cons_append, runOps, runOps]
      exact ih _ (fun o ho => h o (List.mem_cons_of_mem _ ho))
    | addInputError c k0 m0 =>
      rw [List.cons_append, runOps, runOps]
      exact ih _ (fun o ho => h o (List.mem_cons_of_mem _ ho))
    | addRuntimeError k0 m0 =>
      have := h _ (List.mem_cons_self _ _)
      simp [CmdOp.isHalting] at this

/-! ## Sub-command error-copying lemmas -/

theorem errorsContainPair_copyErrorList_mono (subName category : String)
    (ps : ErrorPairs) (es : Errors) (c k m : String)
    (h : errorsContainPair es c k m = true) :
    errorsContainPair (copyErrorList subName category ps es) c k m = true := by
  induction ps generalizing es with
  | nil => exact h
  | cons hd tl ih =>
    obtain ⟨k0, m0⟩ := hd
    rw [copyErrorList]
    exact ih _ ((errorsContainPair_addInputError _ _ _ _ _ _ _).mpr (Or.inl h))

theorem errorsContainPair_copyErrorList (subName category : String)
    (ps : ErrorPairs) (es : Errors) (key msg : String)
    (h : containsPair ps key msg = true) :
    errorsContainPair (copyErrorList subName category ps es) category
      (subName ++ ":" ++ key) msg = true := by
  induction ps generalizing es with
  | nil => simp [containsPair] at h
  | cons hd tl ih =>
    obtain ⟨k0, m0⟩ := hd
    rw [copyErrorList]
    rw [containsPair] at h
    by_cases hk : k0 = key ∧ m0 = msg
    · obtain ⟨rfl, rfl⟩ := hk
      apply errorsContainPair_copyErrorList_mono
      exact (errorsContainPair_addInputError _ _ _ _ _ _ _).mpr
        (Or.inr ⟨rfl, rfl, rfl⟩)
    · rw [if_neg hk] at h
      exact ih _ h

theorem errorsContainPair_copyErrors_mono (subName : String) (sub : Errors)
    (es : Errors) (c k m : String) (h : errorsContainPair es c k m = true) :
    errorsContainPair (copyErrors subName sub es) c k m = true := by
  induction sub generalizing es with
  | nil => exact h
  | cons hd tl ih =>
    obtain ⟨c0, ps⟩ := hd
    rw [copyErrors]
    exact ih _ (errorsContainPair_copyErrorList_mono _ _ _ _ _ _ _ h)

theorem errorsContainPair_copyErrors (subName : String) (sub : Errors)
    (es : Errors) (cat key msg : String)
    (h : errorsContainPair sub cat key msg = true) :
    errorsContainPair (copyErrors subName sub es) cat
      (subName ++ ":" ++ key) msg = true := by
  induction sub generalizing es with
  | nil => simp [errorsContainPair] at h
  | cons hd tl ih =>
    obtain ⟨c0, ps⟩ := hd
    rw [copyErrors]
    rw [errorsContainPair] at h
    by_cases hc : c0 = cat
    · rw [if_pos hc] at h
      subst hc
      apply errorsContainPair_copyErrors_mono
      exact errorsContainPair_copyErrorList _ _ _ _ _ _ h
    · rw [if_neg hc] at h
      exact ih _ h

/-! ## Run-pipeline shape lemmas -/

theorem runCommand_fresh_invalid (cs : CommandSpec) (ins : Inputs)
    (h : structuralErrors cs.schema ins ≠ []) :
    runCommand cs (mkCommand ins) =
      ({ rawInputs := ins, inputs := ins, started := true, completed := true,
         outcome := { result := none,
                      errors := structuralErrors cs.schema ins } }, none) := by
  have h' : (validateInputsErrors cs.schema ins []).isEmpty = false := by
    cases hq : validateInputsErrors cs.schema ins [] with
    | nil => exact absurd hq h
    | cons a l => rfl
  simp [runCommand, mkCommand, structuralErrors, h']

theorem runCommand_fresh_clean (cs : CommandSpec) (ins : Inputs)
    (h : structuralErrors cs.schema ins = []) :
    runCommand cs (mkCommand ins) =
      (if (runOps cs.validateHook []).2 ||
          !(runOps cs.validateHook []).1.isEmpty then
        ({ rawInputs := ins, inputs := applyDefaultInputs cs.schema ins,
           started := true, completed := true,
           outcome := { result := none,
                        errors := (runOps cs.validateHook []).1 } }, none)
      else if (runOps cs.executeOps (runOps cs.validateHook []).1).2 then
        ({ rawInputs := ins, inputs := applyDefaultInputs cs.schema ins,
           started := true, completed := true,
           outcome := { result := none,
                        errors :=
                          (runOps cs.executeOps
                            (runOps cs.validateHook []).1).1 } }, none)
      else
        ({ rawInputs := ins, inputs := applyDefaultInputs cs.schema ins,
           started := true, completed := true,
           outcome := { result := some cs.executeRet,
                        errors :=
                          (runOps cs.executeOps
                            (runOps cs.validateHook []).1).1 } }, none)) := by
  have h' : validateInputsErrors cs.schema ins [] = [] := h
  simp [runCommand, mkCommand, h']

theorem runCommand_rawInputs (cs : CommandSpec) (c : CommandState) :
    (runCommand cs c).1.rawInputs = c.rawInputs := by
  unfold runCommand
  by_cases h0 : c.started = true
  · rw [if_pos h0]
  · rw [if_neg h0]
    simp only []
    split
    · rfl
    · split
      · rfl
      · split <;> rfl

/-! ## Claim theorems -/

/-- C1 counterexample: with schema `{a: {required: true}}` and inputs
`{b: "x"}`, the first pass (`validateSupportedInputs`) records an
`unsupported` error for `b`, yet the later `validateRequiredInputs` pass
still runs and records a `missing` error for `a`.  The outcome's ledger
therefore contains an error produced by a pass after the first pass that
produced an error, contradicting the claimed between-pass
short-circuiting ("an input set with both an unsupported key and an
absent required key yields only UNSUPPORTED errors"). -/
theorem validation_not_short_circuited_between_passes :
    (runCommand { schema := [("a", { required := true })] }
        (mkCommand [("b", JSValue.str "x")])).1.outcome.errors =
      [("b", [("unsupported", "b is not a supported input")]),
       ("a", [("missing", "a is missing")])] := by decide

/-- C1 (amended): the pipeline does not short-circuit between the four
structural validation passes.  `validateInputs` (part_002 lines 101-109)
runs `validateSupportedInputs`, `validateBlankInputs`,
`validateRequiredInputs` and `validateEnums` unconditionally, in order,
over the shared ledger, and halts only afterwards (`haltIfHasErrors`).
Hence whenever structural validation records any error, the outcome's
error ledger is exactly the accumulation of all four passes — errors of
later passes appear alongside errors of earlier ones — while the result
stays unset and the run returns the outcome normally. -/
theorem validation_runs_all_passes_before_halting (cs : CommandSpec)
    (ins : Inputs) (h : structuralErrors cs.schema ins ≠ []) :
    (runCommand cs (mkCommand ins)).1.outcome.errors =
        validateEnums ins cs.schema
          (validateRequiredInputs ins cs.schema
            (validateBlankInputs cs.schema ins
              (validateSupportedInputs cs.schema ins []))) ∧
      (runCommand cs (mkCommand ins)).1.outcome.result = none ∧
      (runCommand cs (mkCommand ins)).2 = none := by
  rw [runCommand_fresh_invalid cs ins h]
  exact ⟨rfl, rfl, rfl⟩

/-- Witness for the amended C1 theorem at schema `{a: {required: true}}`
and inputs `{b: "x"}`. -/
theorem validation_runs_all_passes_before_halting_witness :
    structuralErrors [("a", ({ required := true } : InputSchema))]
        [("b", JSValue.str "x")] ≠ [] ∧
      ((runCommand { schema := [("a", { required := true })] }
          (mkCommand [("b", JSValue.str "x")])).1.outcome.errors =
          validateEnums [("b", JSValue.str "x")]
            [("a", ({ required := true } : InputSchema))]
            (validateRequiredInputs [("b", JSValue.str "x")]
              [("a", ({ required := true } : InputSchema))]
              (validateBlankInputs [("a", ({ required := true } : InputSchema))]
                [("b", JSValue.str "x")]
                (validateSupportedInputs
                  [("a", ({ required := true } : InputSchema))]
                  [("b", JSValue.str "x")] []))) ∧
        (runCommand { schema := [("a", { required := true })] }
            (mkCommand [("b", JSValue.str "x")])).1.outcome.result = none ∧
        (runCommand { schema := [("a", { required := true })] }
            (mkCommand [("b", JSValue.str "x")])).2 = none) :=
  ⟨by decide, validation_runs_all_passes_before_halting _ _ (by decide)⟩

/-- C2 counterexample: a command with an empty schema whose `execute`
records a non-halting input error (`addInputError`, part_002 line 92) and
then returns the value `"v"`.  `run` (part_002 lines 49-50) reaches
`this.setResult(result)` unconditionally after a normal return of
`execute`, so the final outcome carries both a non-empty error ledger
(success is false) and a set result — refuting "setResult is never
invoked once errors exist ... result remains the initial unset value
(null) whenever success is false". -/
theorem result_set_despite_errors :
    ((runCommand
          { schema := [],
            executeOps := [CmdOp.addInputError "x" "invalid" "boom"],
            executeRet := JSValue.str "v" }
          (mkCommand [])).1.outcome.result = some (JSValue.str "v")) ∧
      ((runCommand
          { schema := [],
            executeOps := [CmdOp.addInputError "x" "invalid" "boom"],
            executeRet := JSValue.str "v" }
          (mkCommand [])).1.outcome.success = false) := by decide

/-- C2 (amended): `setResult` is reached only when the whole pipeline
before it ran clean.  If the final outcome carries a set result, then
structural validation recorded no error, the `validate` hook recorded no
error and did not halt, and `execute` did not halt.  Consequently, when
any error is recorded by structural validation, by the hook, or by a
halting runtime error inside `execute`, the result remains unset
(`null`); only an `execute` that records a non-halting input error and
still returns normally ends with both errors and a set result. -/
theorem result_only_set_on_clean_pipeline (cs : CommandSpec) (ins : Inputs)
    (h : (runCommand cs (mkCommand ins)).1.outcome.result ≠ none) :
    structuralErrors cs.schema ins = [] ∧
      runOps cs.validateHook [] = ([], false) ∧
      (runOps cs.executeOps []).2 = false := by
  by_cases hs : structuralErrors cs.schema ins = []
  case neg =>
    exfalso
    apply h
    rw [runCommand_fresh_invalid cs ins hs]
  case pos =>
    rw [runCommand_fresh_clean cs ins hs] at h
    by_cases h1 : ((runOps cs.validateHook []).2 ||
        !(runOps cs.validateHook []).1.isEmpty) = true
    · rw [if_pos h1] at h
      exact absurd rfl h
    · have h1' := h1
      rw [Bool.or_eq_true, not_or] at h1'
      obtain ⟨hh2, hh1⟩ := h1'
      have e1 : (runOps cs.validateHook []).1 = [] := by
        cases hq : (runOps cs.validateHook []).1 with
        | nil => rfl
        | cons a l => exfalso; apply hh1; rw [hq]; rfl
      have e2 : (runOps cs.validateHook []).2 = false := by
        cases hq : (runOps cs.validateHook []).2 with
        | false => rfl
        | true => exact absurd hq hh2
      rw [if_neg h1] at h
      by_cases h2 : (runOps cs.executeOps (runOps cs.validateHook []).1).2 = true
      · rw [if_pos h2] at h
        exact absurd rfl h
      · refine ⟨hs, ?_, ?_⟩
        · have heta : runOps cs.validateHook [] =
              ((runOps cs.validateHook []).1, (runOps cs.validateHook []).2) :=
            rfl
          rw [heta, e1, e2]
        · rw [e1] at h2
          cases hq : (runOps cs.executeOps []).2 with
          | false => rfl
          | true => exact absurd hq h2

/-- Witness for the amended C2 theorem: a trivially successful command
(empty schema, empty hook and execute body) whose result is set. -/
theorem result_only_set_on_clean_pipeline_witness :
    ((runCommand { schema := [], executeRet := JSValue.str "ok" }
        (mkCommand [])).1.outcome.result ≠ none) ∧
      (structuralErrors ([] : Schema) [] = [] ∧
        runOps ([] : List CmdOp) [] = ([], false) ∧
        (runOps ([] : List CmdOp) []).2 = false) :=
  ⟨by decide,
   result_only_set_on_clean_pipeline
     { schema := [], executeRet := JSValue.str "ok" } [] (by decide)⟩

/-- C3 (confirmed): once `addRuntimeError` is invoked inside `execute`
(part_002 lines 93-96), the runtime error is recorded in the owned
outcome and execution aborts immediately: the final state is identical to
the run whose `execute` body ends at the halting statement (so no
subsequently-ordered statement contributes), the result remains unset,
the run completes, and the `HaltExecution` signal is swallowed inside
`run` — the caller sees a normal return (`none` in the exception
component), never the signal. -/
theorem runtime_error_halts_execute (cs : CommandSpec) (ins : Inputs)
    (pre post : List CmdOp) (k m : String)
    (hexec : cs.executeOps = pre ++ CmdOp.addRuntimeError k m :: post)
    (hpre : ∀ op ∈ pre, op.isHalting = false)
    (hstruct : structuralErrors cs.schema ins = [])
    (hhook : cs.validateHook = []) :
    (runCommand cs (mkCommand ins)).2 = none ∧
      (runCommand cs (mkCommand ins)).1.outcome.result = none ∧
      (runCommand cs (mkCommand ins)).1.completed = true ∧
      (runCommand cs (mkCommand ins)).1.outcome.errors =
        addRuntimeError (runOps pre []).1 k m ∧
      runCommand { cs with executeOps := pre ++ [CmdOp.addRuntimeError k m] }
          (mkCommand ins) = runCommand cs (mkCommand ins) := by
  have hrun1 : runOps cs.executeOps [] =
      (addRuntimeError (runOps pre []).1 k m, true) := by
    rw [hexec]
    exact runOps_append_halting pre post k m [] hpre
  have hrun2 : runOps (pre ++ [CmdOp.addRuntimeError k m]) [] =
      (addRuntimeError (runOps pre []).1 k m, true) :=
    runOps_append_halting pre [] k m [] hpre
  rw [runCommand_fresh_clean cs ins hstruct,
    runCommand_fresh_clean { cs with executeOps := pre ++ [CmdOp.addRuntimeError k m] } ins hstruct]
  rw [hhook]
  simp [runOps, hrun1, hrun2]

/-- C4 (confirmed): for every schema entry marked required whose key is
entirely absent from the supplied inputs, the run is unsuccessful and the
outcome contains a `missing` error keyed by that input name — the
descriptor `sch` is arbitrary, so this holds regardless of any declared
default; and a required input that is present but blank (with blanks not
allowed) produces a `blank` error keyed by that name and no `missing`
error for that name. -/
theorem required_missing_and_blank_classification (cs : CommandSpec)
    (ins : Inputs) (name : String) (sch : InputSchema)
    (hs : lookupStr cs.schema name = some sch) (hr : sch.required = true) :
    (lookupStr ins name = none →
      errorsContain (runCommand cs (mkCommand ins)).1.outcome.errors
          name "missing" = true ∧
        (runCommand cs (mkCommand ins)).1.outcome.success = false) ∧
    (∀ v, lookupStr ins name = some v → isBlank v = true →
      sch.allowBlank = false →
      errorsContain (runCommand cs (mkCommand ins)).1.outcome.errors
          name "blank" = true ∧
        errorsContain (runCommand cs (mkCommand ins)).1.outcome.errors
          name "missing" = false) := by
  constructor
  · intro habs
    have ha : hasKey ins name = false := by
      unfold hasKey; rw [habs]; rfl
    have hmiss : errorsContain (structuralErrors cs.schema ins)
        name "missing" = true :=
      validateInputsErrors_contains_missing cs.schema ins [] name sch hs hr ha
    have hne : structuralErrors cs.schema ins ≠ [] := by
      intro hq
      rw [hq] at hmiss
      simp [errorsContain] at hmiss
    rw [runCommand_fresh_invalid cs ins hne]
    refine ⟨hmiss, ?_⟩
    unfold Outcome.success Outcome.hasErrors
    simp only []
    rw [errorsContain_isEmpty_false hmiss]
    rfl
  · intro v hv hb hab
    have hkey : hasKey ins name = true := by
      unfold hasKey; rw [hv]; rfl
    have hblank : errorsContain (structuralErrors cs.schema ins)
        name "blank" = true :=
      validateInputsErrors_contains_blank cs.schema ins [] name v sch hv hb hs hab
    have hnomiss : errorsContain (structuralErrors cs.schema ins)
        name "missing" = false :=
      validateInputsErrors_no_missing_when_present cs.schema ins [] name hkey rfl
    have hne : structuralErrors cs.schema ins ≠ [] := by
      intro hq
      rw [hq] at hblank
      simp [errorsContain] at hblank
    rw [runCommand_fresh_invalid cs ins hne]
    exact ⟨hblank, hnomiss⟩

/-- Witness for the C4 theorem at schema
`{name: {type: "string", required: true, default: "dflt"}}`, once with
inputs `{}` (missing) and once with inputs `{name: ""}` (blank, not
missing). -/
theorem required_missing_and_blank_classification_witness :
    (lookupStr [("name", ({ type := "string", required := true, hasDefault := true, default := JSValue.str "dflt" } : InputSchema))] "name" =
      some ({ type := "string", required := true, hasDefault := true, default := JSValue.str "dflt" } : InputSchema)) ∧
    (errorsContain
        (runCommand { schema := [("name", { type := "string", required := true, hasDefault := true, default := JSValue.str "dflt" })] }
          (mkCommand [])).1.outcome.errors "name" "missing" = true ∧
      (runCommand { schema := [("name", { type := "string", required := true, hasDefault := true, default := JSValue.str "dflt" })] }
          (mkCommand [])).1.outcome.success = false) ∧
    (errorsContain
        (runCommand { schema := [("name", { type := "string", required := true, hasDefault := true, default := JSValue.str "dflt" })] }
          (mkCommand [("name", JSValue.str "")])).1.outcome.errors "name" "blank" = true ∧
      errorsContain
        (runCommand { schema := [("name", { type := "string", required := true, hasDefault := true, default := JSValue.str "dflt" })] }
          (mkCommand [("name", JSValue.str "")])).1.outcome.errors "name" "missing" = false) :=
  ⟨by decide,
   (required_missing_and_blank_classification
     { schema := [("name", { type := "string", required := true, hasDefault := true, default := JSValue.str "dflt" })] }
     [] "name"
     { type := "string", required := true, hasDefault := true, default := JSValue.str "dflt" }
     (by decide) (by decide)).1 (by decide),
   (required_missing_and_blank_classification
     { schema := [("name", { type := "string", required := true, hasDefault := true, default := JSValue.str "dflt" })] }
     [("name", JSValue.str "")] "name"
     { type := "string", required := true, hasDefault := true, default := JSValue.str "dflt" }
     (by decide) (by decide)).2
     (JSValue.str "") (by decide) (by decide) (by decide)⟩

/-- C5 counterexample: schema `{a: {required: true, default: "d"}}` with
inputs `{}`.  Structural validation records the `missing` error, so
`validateInputs` halts (its trailing `haltIfHasErrors`) before `run`
reaches `this.applyDefaultInputs()` (part_002 lines 46-47): the working
inputs copy stays empty and the declared default `"d"` is never filled
in, refuting "applyDefaultInputs is always executed after the four
structural validation checks, regardless of whether those checks produced
errors". -/
theorem defaults_skipped_after_validation_errors :
    ((runCommand { schema := [("a", { required := true, hasDefault := true, default := JSValue.str "d" })] }
          (mkCommand [])).1.inputs = []) ∧
      ((runCommand { schema := [("a", { required := true, hasDefault := true, default := JSValue.str "d" })] }
          (mkCommand [])).1.outcome.success = false) := by decide

/-- C5 (amended): `applyDefaultInputs` executes after the four structural
validation checks only when those checks recorded no error (when they
did, `validateInputs` halts first and the working inputs stay as
supplied).  On the error-free path the working inputs copy becomes
`applyDefaultInputs` of the supplied inputs, in which every
schema-declared key absent from the supplied inputs is filled with its
declared default (or explicit `undefined` when no default is declared). -/
theorem defaults_applied_only_when_validation_clean (cs : CommandSpec)
    (ins : Inputs) (h : structuralErrors cs.schema ins = []) :
    (runCommand cs (mkCommand ins)).1.inputs =
        applyDefaultInputs cs.schema ins ∧
      ∀ name sch, lookupStr cs.schema name = some sch →
        lookupStr ins name = none →
        lookupStr (applyDefaultInputs cs.schema ins) name =
          some (if sch.hasDefault then sch.default else JSValue.undef) := by
  constructor
  · rw [runCommand_fresh_clean cs ins h]
    split
    · rfl
    · split <;> rfl
  · exact fun name sch hsc hn => applyDefaultInputs_fills _ _ _ _ hsc hn

/-- Witness for the amended C5 theorem at schema `{b: {default: "d"}}`
and inputs `{}`: validation is clean, the default is applied. -/
theorem defaults_applied_only_when_validation_clean_witness :
    (structuralErrors [("b", ({ hasDefault := true, default := JSValue.str "d" } : InputSchema))] [] = []) ∧
      ((runCommand { schema := [("b", { hasDefault := true, default := JSValue.str "d" })] }
            (mkCommand [])).1.inputs =
          applyDefaultInputs [("b", ({ hasDefault := true, default := JSValue.str "d" } : InputSchema))] [] ∧
        lookupStr (applyDefaultInputs [("b", ({ hasDefault := true, default := JSValue.str "d" } : InputSchema))] []) "b" =
          some (JSValue.str "d")) :=
  ⟨by decide,
   (defaults_applied_only_when_validation_clean
       { schema := [("b", { hasDefault := true, default := JSValue.str "d" })] } [] (by decide)).1,
   (defaults_applied_only_when_validation_clean
       { schema := [("b", { hasDefault := true, default := JSValue.str "d" })] } [] (by decide)).2 "b"
     { hasDefault := true, default := JSValue.str "d" } (by decide) (by decide)⟩

/-- C6 (confirmed): defaulting is idempotent and non-destructive — for
every schema and inputs, applying `applyDefaultInputs` twice yields
exactly the same mapping as applying it once, and a key the caller
supplied (with any value, including falsy ones such as `false`, `0` or
the empty string) is never overwritten by a default. -/
theorem defaulting_idempotent_and_non_destructive (schema : Schema)
    (ins : Inputs) :
    applyDefaultInputs schema (applyDefaultInputs schema ins) =
        applyDefaultInputs schema ins ∧
      ∀ name v, lookupStr ins name = some v →
        lookupStr (applyDefaultInputs schema ins) name = some v := by
  constructor
  · exact applyDefaultInputs_eq_of_present _ _
      (fun p hp => applyDefaultInputs_hasKey_of_mem schema ins p hp)
  · exact fun name v h => applyDefaultInputs_lookup_preserved _ _ _ h

/-- Witness for the C6 theorem: schema `{a: {default: "d"}, b: {}}` with
the falsy supplied value `{a: false}` — applying defaults twice equals
once, and the supplied `false` survives. -/
theorem defaulting_idempotent_and_non_destructive_witness :
    (applyDefaultInputs [("a", ({ hasDefault := true, default := JSValue.str "d" } : InputSchema)), ("b", {})]
        (applyDefaultInputs [("a", ({ hasDefault := true, default := JSValue.str "d" } : InputSchema)), ("b", {})]
          [("a", JSValue.bool false)]) =
      applyDefaultInputs [("a", ({ hasDefault := true, default := JSValue.str "d" } : InputSchema)), ("b", {})]
        [("a", JSValue.bool false)]) ∧
    ((lookupStr [("a", JSValue.bool false)] "a" = some (JSValue.bool false)) ∧
      lookupStr
          (applyDefaultInputs [("a", ({ hasDefault := true, default := JSValue.str "d" } : InputSchema)), ("b", {})]
            [("a", JSValue.bool false)]) "a" =
        some (JSValue.bool false)) :=
  ⟨(defaulting_idempotent_and_non_destructive
      [("a", { hasDefault := true, default := JSValue.str "d" }), ("b", {})]
      [("a", JSValue.bool false)]).1,
   by decide,
   (defaulting_idempotent_and_non_destructive
      [("a", { hasDefault := true, default := JSValue.str "d" }), ("b", {})]
      [("a", JSValue.bool false)]).2 "a" (JSValue.bool false) (by decide)⟩

/-- C7 (confirmed): when `runSubCommand` runs a child command that fails,
every `(key, message)` pair in every category of the child's final error
ledger is copied into the parent's ledger with the symbolic key
re-namespaced as `"<ChildTypeName>:<originalKey>"`, the category name
preserved unchanged (a child's `runtime` errors land under the parent's
`runtime` category), and the human message preserved verbatim. -/
theorem sub_command_errors_copied (parentErrors : Errors) (subName : String)
    (subSpec : CommandSpec) (subInputs : Inputs) (assertSuccess : Bool)
    (cat key msg : String)
    (h : errorsContainPair
        ((runCommand subSpec (mkCommand subInputs)).1.outcome.errors)
        cat key msg = true) :
    errorsContainPair
        (runSubCommand parentErrors subName subSpec subInputs
          assertSuccess).parentErrors
        cat (subName ++ ":" ++ key) msg = true := by
  unfold runSubCommand
  simp only []
  have hfail : (runCommand subSpec (mkCommand subInputs)).1.outcome.success
      = false := by
    unfold Outcome.success Outcome.hasErrors
    rw [errorsContainPair_isEmpty_false h]
    rfl
  rw [hfail]
  simp only [Bool.not_false, if_true]
  exact errorsContainPair_copyErrors _ _ _ _ _ _ h

/-- Witness for the C7 theorem: a failing child command named `Foo` that
recorded an `invalid` error under category `field1` causes the parent's
`field1` category to contain an entry keyed `"Foo:invalid"` with the
original message preserved verbatim. -/
theorem sub_command_errors_copied_witness :
    (errorsContainPair
        ((runCommand { schema := [], executeOps := [CmdOp.addInputError "field1" "invalid" "bad value"], executeRet := JSValue.str "r" }
            (mkCommand [])).1.outcome.errors)
        "field1" "invalid" "bad value" = true) ∧
      errorsContainPair
          ((runSubCommand [] "Foo"
            { schema := [], executeOps := [CmdOp.addInputError "field1" "invalid" "bad value"], executeRet := JSValue.str "r" }
            [] true).parentErrors)
          "field1" "Foo:invalid" "bad value" = true :=
  ⟨by decide,
   sub_command_errors_copied [] "Foo"
     { schema := [], executeOps := [CmdOp.addInputError "field1" "invalid" "bad value"], executeRet := JSValue.str "r" }
     [] true "field1" "invalid" "bad value" (by decide)⟩

/-- C8 (confirmed): invoking `run` a second time on a command instance
whose run has already begun throws the fatal error
`"Cannot run a command twice"` (part_002 line 41).  The guard sits before
the `try` block, so the throw happens before any validation executes and
the state — the outcome's error ledger included — is returned exactly as
it was: the fatal error is never recorded in the instance's outcome. -/
theorem run_twice_fatal (cs : CommandSpec) (c : CommandState)
    (h : c.started = true) :
    runCommand cs c = (c, some "Cannot run a command twice") := by
  unfold runCommand
  rw [if_pos h]

/-- Witness for the C8 theorem: run a trivial command once, then invoke
`run` again on the resulting instance state. -/
theorem run_twice_fatal_witness :
    ((runCommand { schema := [] } (mkCommand [])).1.started = true) ∧
      runCommand { schema := [] }
          (runCommand { schema := [] } (mkCommand [])).1 =
        ((runCommand { schema := [] } (mkCommand [])).1,
          some "Cannot run a command twice") :=
  ⟨by decide, run_twice_fatal { schema := [] }
    (runCommand { schema := [] } (mkCommand [])).1 (by decide)⟩

/-- C9 (confirmed against the spec-modelled strict variant): for a
command class whose schema is attached only to an instance rather than
statically to the type, `run` rejects the configuration with the
dedicated `CommandWithNonStaticSchemaError` before any of the four
validation passes executes — the returned state is exactly the input
state, so no validation pass has touched it and there is no permissive
fallback to the instance-level schema. -/
theorem non_static_schema_rejected (schemaIsStatic : Bool)
    (cs : CommandSpec) (c : CommandState) (h : schemaIsStatic = false) :
    runWithStaticSchemaCheck schemaIsStatic cs c =
      (c, some "CommandWithNonStaticSchemaError") := by
  unfold runWithStaticSchemaCheck
  rw [h]
  rfl

/-- Witness for the C9 theorem at a fresh command with an instance-only
schema. -/
theorem non_static_schema_rejected_witness :
    ((false : Bool) = false) ∧
      runWithStaticSchemaCheck false { schema := [] } (mkCommand []) =
        (mkCommand [], some "CommandWithNonStaticSchemaError") :=
  ⟨rfl, non_static_schema_rejected false { schema := [] } (mkCommand []) rfl⟩

/-- C10 (confirmed): the caller-supplied raw inputs are never mutated by
a run.  The constructor stores the caller's object as `_rawInputs` and
works on a separate copy (`cloneDeep` plus the guarded-property wrapper,
modelled from the spec as an isolating copy), and no stage of the
pipeline — defaulting included — ever writes the `rawInputs` field, so
after the run it is exactly the mapping the caller supplied. -/
theorem raw_inputs_never_mutated (cs : CommandSpec) (ins : Inputs) :
    (runCommand cs (mkCommand ins)).1.rawInputs = ins :=
  runCommand_rawInputs cs (mkCommand ins)

/-- Witness for the C3 theorem, mirroring the jest runtime-error test:
`execute` performs a first operation, then
`addRuntimeError('operation 2 exploded!')`, and a third operation that
never contributes. -/
theorem runtime_error_halts_execute_witness :
    (runCommand { schema := [], executeOps := [CmdOp.pureOp, CmdOp.addRuntimeError "operation 2 exploded!" "", CmdOp.pureOp], executeRet := JSValue.str "ok" } (mkCommand [])).2 = none ∧
      (runCommand { schema := [], executeOps := [CmdOp.pureOp, CmdOp.addRuntimeError "operation 2 exploded!" "", CmdOp.pureOp], executeRet := JSValue.str "ok" } (mkCommand [])).1.outcome.result = none ∧
      (runCommand { schema := [], executeOps := [CmdOp.pureOp, CmdOp.addRuntimeError "operation 2 exploded!" "", CmdOp.pureOp], executeRet := JSValue.str "ok" } (mkCommand [])).1.completed = true ∧
      (runCommand { schema := [], executeOps := [CmdOp.pureOp, CmdOp.addRuntimeError "operation 2 exploded!" "", CmdOp.pureOp], executeRet := JSValue.str "ok" } (mkCommand [])).1.outcome.errors =
        addRuntimeError (runOps [CmdOp.pureOp] []).1 "operation 2 exploded!" "" ∧
      runCommand { schema := [], executeOps := [CmdOp.pureOp, CmdOp.addRuntimeError "operation 2 exploded!" ""], executeRet := JSValue.str "ok" } (mkCommand []) =
        runCommand { schema := [], executeOps := [CmdOp.pureOp, CmdOp.addRuntimeError "operation 2 exploded!" "", CmdOp.pureOp], executeRet := JSValue.str "ok" } (mkCommand []) :=
  runtime_error_halts_execute
    { schema := [], executeOps := [CmdOp.pureOp, CmdOp.addRuntimeError "operation 2 exploded!" "", CmdOp.pureOp], executeRet := JSValue.str "ok" }
    [] [CmdOp.pureOp] [CmdOp.pureOp] "operation 2 exploded!" ""
    rfl (by decide) (by decide) rfl
